import Mathlib

/-!
Verification of the time-to-score synchronization engine of the
Guitar-Pro-Tab-Player repository (src/editor.js, src/sync-player.js),
shallowly embedded in Lean: beat markers, the two position resolvers
(`SyncEditor.highlightCurrentBar` and `SyncedPlayer.updateCursor`), the
playback transport (`play` / `pause` / `stop` / `seekTo` / the `onended`
handler, and the tempo-slider handler), and the recording session
(`recordBeatMarker` / `undoLastMarker` / `clearAllMarkers`).

Times and rates are rationals (none of the embedded code paths can
produce NaN from finite inputs, so the rationals model the JS doubles
of these paths exactly up to rounding); bar numbers are integers.
-/

namespace TabSync

/-- A beat marker `{ bar, time }` as pushed by `recordBeatMarker`
(editor.js 882-885) and consumed by both resolvers. -/
structure Marker where
  bar : ℤ
  time : ℚ
deriving DecidableEq

/-! ### The editor resolver: `SyncEditor.highlightCurrentBar` -/

/-- The JS quirk of editor.js line 1091
(`nextBarTime = this.beatMarkers[i + 1]?.time || null`): a missing next
marker gives `null`, and a next-marker time of `0` is falsy in JS and
also collapses to `null`. -/
def editorNextTime : List Marker → Option ℚ
  | [] => none
  | m :: _ => if m.time = 0 then none else some m.time

/-- The forward scan of `highlightCurrentBar` (editor.js 1087-1095):
walk the markers in insertion order, recording
`(currentBar, currentBarTime, nextBarTime)` while
`currentTime >= marker.time`, and break at the first marker not yet
reached.  The accumulator starts at `(0, 0, none)`
(editor.js 1083-1085). -/
def editorScan (t : ℚ) : List Marker → ℤ × ℚ × Option ℚ → ℤ × ℚ × Option ℚ
  | [], acc => acc
  | m :: rest, acc =>
    if m.time ≤ t then editorScan t rest (m.bar, m.time, editorNextTime rest) else acc

/-- Within-bar progress of `highlightCurrentBar` (editor.js 1114-1120):
`progress` stays `0` unless a truthy `nextBarTime` strictly exceeds
`currentBarTime`, in which case `(t - start)/(end - start)` is clamped
to `[0,1]` via `Math.min(1, Math.max(0, _))`. -/
def editorProgress (t c : ℚ) : Option ℚ → ℚ
  | some n => if c < n then min 1 (max 0 ((t - c) / (n - c))) else 0
  | none => 0

/-- The function `SyncEditor.highlightCurrentBar` as a pure resolver: `some (bar,
progress)` when some marker was reached (the guard `currentBar > 0` at
editor.js 1105 and 1111 protects both the scroll and the tick
interpolation), `none` otherwise (the cursor is not moved). -/
def highlightCurrentBar (markers : List Marker) (t : ℚ) : Option (ℤ × ℚ) :=
  let (bar, c, n) := editorScan t markers (0, 0, none)
  if 0 < bar then some (bar, editorProgress t c n) else none

/-! ### The player resolver: `SyncedPlayer.updateCursor` -/

/-- The `nextBarTime` selection inside the accepting branch of the player
scan (sync-player.js 770-774): the following marker's time if present,
else the audio's total duration. -/
def playerNextTime (dur : ℚ) : List Marker → ℚ
  | [] => dur
  | m :: _ => m.time

/-- The forward scan of `updateCursor` (sync-player.js 760-778): like
the editor scan but tracking the marker index `currentBarIndex`, with
`nextBarTime` initialized to (and defaulting to) the audio duration.
The accumulator starts at `(0, 0, dur)`. -/
def playerScanGo (t dur : ℚ) : List Marker → ℕ → ℕ × ℚ × ℚ → ℕ × ℚ × ℚ
  | [], _, acc => acc
  | m :: rest, i, acc =>
    if m.time ≤ t then playerScanGo t dur rest (i + 1) (i, m.time, playerNextTime dur rest)
    else acc

/-- The player scan entry point over the whole marker list. -/
def playerScan (markers : List Marker) (dur t : ℚ) : ℕ × ℚ × ℚ :=
  playerScanGo t dur markers 0 (0, 0, dur)

/-- Within-bar progress of `updateCursor` (sync-player.js 799-801):
`barDuration > 0 ? Math.min(1, Math.max(0, timeInBar / barDuration)) : 0`. -/
def playerProgress (t c n : ℚ) : ℚ :=
  if 0 < n - c then min 1 (max 0 ((t - c) / (n - c))) else 0

/-- The core of `SyncedPlayer.updateCursor` on the already offset-adjusted time:
resolve the scan, read `markers[currentBarIndex]` (sync-player.js
780-781; `undefined`, hence no emission, exactly when the marker list is
empty), and pair that marker's bar with the clamped progress. -/
def resolveAdjusted (markers : List Marker) (dur t : ℚ) : Option (ℤ × ℚ) :=
  let (idx, c, n) := playerScan markers dur t
  match markers.get? idx with
  | none => none
  | some m => some (m.bar, playerProgress t c n)

/-- The constant `this.notationOffset = -0.15` (sync-player.js line 43). -/
def leadOffset : ℚ := -3/20

/-- The function `SyncedPlayer.updateCursor` as a pure resolver of the raw current
time: applies the notation offset (sync-player.js 757), then resolves. -/
def updateCursor (markers : List Marker) (dur t : ℚ) : Option (ℤ × ℚ) :=
  resolveAdjusted markers dur (t + leadOffset)

/-! ### The playback transport of `SyncedPlayer`

The audio engine is the Web Audio context: its clock is the `now`
parameter below, and the engine-side playback position while playing is
`(now - startedAt) * playbackRate` (sync-player.js 723). -/

/-- Transport state owned by `SyncedPlayer` (constructor, sync-player.js
20-45): `audioBuffer` / `hasSource` model the presence of the decoded
buffer and of a live `audioSource` node; `engineRate` is the rate last
written into `audioSource.playbackRate.value`; `barDisplay` is the bar
number shown in the `currentBar` DOM element. -/
structure PlayerState where
  audioBuffer : Bool
  hasSource : Bool
  isPlaying : Bool
  isLooping : Bool
  pausedAt : ℚ
  currentTime : ℚ
  startedAt : ℚ
  playbackRate : ℚ
  engineRate : ℚ
  duration : ℚ
  currentBar : ℤ
  barDisplay : ℤ
  markers : List Marker
deriving DecidableEq

/-- The method `SyncedPlayer.play` (sync-player.js 610-640) at audio-context time
`now`: no-op without a decoded buffer; otherwise creates a source at the
stored rate and starts it at offset `pausedAt`, so that
`startedAt = now - pausedAt / playbackRate`. -/
def play (now : ℚ) (s : PlayerState) : PlayerState :=
  if !s.audioBuffer then s
  else
    { s with
      hasSource := true
      engineRate := s.playbackRate
      startedAt := now - s.pausedAt / s.playbackRate
      isPlaying := true }

/-- The method `SyncedPlayer.pause` (sync-player.js 642-656): no-op unless playing;
captures the engine position into `pausedAt`, tears down the source, and
stops the update loop. -/
def pause (now : ℚ) (s : PlayerState) : PlayerState :=
  if !s.isPlaying then s
  else
    { s with
      pausedAt := (now - s.startedAt) * s.playbackRate
      hasSource := false
      isPlaying := false }

/-- The state-mutating face of `SyncedPlayer.updateCursor`: when the
resolver emits, the internal `currentBar` and the bar-indicator DOM text
are updated to the emitted bar (sync-player.js 786-789). -/
def updateCursorState (s : PlayerState) : PlayerState :=
  match updateCursor s.markers s.duration s.currentTime with
  | none => s
  | some (b, _) => { s with currentBar := b, barDisplay := b }

/-- The method `SyncedPlayer.stop` (sync-player.js 658-666): pause, reset position
to 0, reset `currentBar` to 0, re-run `updateCursor`, and write `'1'`
into the bar indicator. -/
def stop (now : ℚ) (s : PlayerState) : PlayerState :=
  let s1 := pause now s
  let s2 := { s1 with pausedAt := 0, currentTime := 0, currentBar := 0 }
  let s3 := updateCursorState s2
  { s3 with barDisplay := 1 }

/-- The method `SyncedPlayer.seekTo` (sync-player.js 668-683): pause if playing,
clamp the requested time into `[0, duration]`, re-resolve the cursor
synchronously, and resume if it was playing. -/
def seekTo (now : ℚ) (time : ℚ) (s : PlayerState) : PlayerState :=
  let wasPlaying := s.isPlaying
  let s1 := if wasPlaying then pause now s else s
  let s2 := { s1 with pausedAt := max 0 (min time s1.duration) }
  let s3 := { s2 with currentTime := s2.pausedAt }
  let s4 := updateCursorState s3
  if wasPlaying then play now s4 else s4

/-- The playback position the update loop reads from the engine
(sync-player.js 723): `(now - startedAt) * playbackRate`. -/
def engineTime (now : ℚ) (s : PlayerState) : ℚ :=
  (now - s.startedAt) * s.playbackRate

/-- The `audioSource.onended` handler installed by `play`
(sync-player.js 622-631): while playing, loop via `seekTo(0)` plus
`play()`, or `stop()` when not looping. -/
def onEnded (now : ℚ) (s : PlayerState) : PlayerState :=
  if s.isPlaying then
    if s.isLooping then play now (seekTo now 0 s)
    else stop now s
  else s

/-- The tempo-slider `input` handler (sync-player.js 220-228): store
`value / 100` as the playback rate and, when a source is live, write it
into the engine.  No validation is performed on `value`. -/
def setTempoSlider (value : ℤ) (s : PlayerState) : PlayerState :=
  let r := (value : ℚ) / 100
  let s1 := { s with playbackRate := r }
  if s1.hasSource then { s1 with engineRate := r } else s1

/-! ### The recording session of `SyncEditor` -/

/-- Recording-session state owned by `SyncEditor` (constructor,
editor.js 7-38): `hasWavesurfer` / `hasScore` model the `null` checks on
the audio widget and the decoded score; `playbackSpeed` / `wsRate`
mirror the speed slider and the rate last pushed to the audio widget. -/
structure EditorState where
  hasWavesurfer : Bool
  hasScore : Bool
  beatMarkers : List Marker
  currentBarToMark : ℤ
  totalBars : ℤ
  playbackSpeed : ℚ
  wsRate : ℚ
deriving DecidableEq

/-- The method `SyncEditor.recordBeatMarker` (editor.js 875-901), the tap: no-op
without audio or score, or once every bar is marked; otherwise push
`{ bar: currentBarToMark, time }` and advance `currentBarToMark`. -/
def recordBeatMarker (t : ℚ) (s : EditorState) : EditorState :=
  if !s.hasWavesurfer || !s.hasScore then s
  else if s.totalBars < s.currentBarToMark then s
  else
    { s with
      beatMarkers := s.beatMarkers ++ [⟨s.currentBarToMark, t⟩]
      currentBarToMark := s.currentBarToMark + 1 }

/-- The method `SyncEditor.undoLastMarker` (editor.js 910-920): no-op on an empty
marker list; otherwise pop the last marker and step `currentBarToMark`
back. -/
def undoLastMarker (s : EditorState) : EditorState :=
  if s.beatMarkers.length = 0 then s
  else
    { s with
      beatMarkers := s.beatMarkers.dropLast
      currentBarToMark := s.currentBarToMark - 1 }

/-- The method `SyncEditor.clearAllMarkers` (editor.js 922-933): no-op on an empty
list or when the user cancels the confirmation dialog; otherwise reset
the markers and `currentBarToMark`. -/
def clearAllMarkers (confirmed : Bool) (s : EditorState) : EditorState :=
  if s.beatMarkers.length = 0 then s
  else if !confirmed then s
  else { s with beatMarkers := [], currentBarToMark := 1 }

/-- The editor speed-slider `input` handler (editor.js 561-568): store
`value / 100` and, when the audio widget exists, push the rate to it.
No validation is performed on `value`. -/
def setSpeedSlider (value : ℤ) (s : EditorState) : EditorState :=
  let r := (value : ℚ) / 100
  let s1 := { s with playbackSpeed := r }
  if s1.hasWavesurfer then { s1 with wsRate := r } else s1

/-- A user action of the recording session. -/
inductive EditorOp where
  | tap (t : ℚ)
  | undo
  | clear (confirmed : Bool)

/-- Dispatch one recording-session action. -/
def applyOp (s : EditorState) : EditorOp → EditorState
  | .tap t => recordBeatMarker t s
  | .undo => undoLastMarker s
  | .clear c => clearAllMarkers c s

/-- Run a finite sequence of recording-session actions. -/
def runOps (s : EditorState) (ops : List EditorOp) : EditorState :=
  ops.foldl applyOp s

/-- Decides that a marker list carries the consecutive bar numbers
`k, k + 1, ...` in insertion order. -/
def barsSeqFrom (k : ℤ) : List Marker → Bool
  | [] => true
  | m :: rest => (m.bar == k) && barsSeqFrom (k + 1) rest

/-! ### Concrete states used to instantiate the theorems -/

/-- A loaded player: three markers over an 8-second track, currently
playing at unit rate (context clock 2 seconds ahead of media time 0). -/
def samplePlayer : PlayerState :=
  { audioBuffer := true, hasSource := true, isPlaying := true, isLooping := false
    pausedAt := 0, currentTime := 3, startedAt := 2, playbackRate := 1, engineRate := 1
    duration := 8, currentBar := 2, barDisplay := 2
    markers := [⟨1, 0⟩, ⟨2, 2⟩, ⟨3, 6⟩] }

/-- A loaded editor session: two of four bars marked. -/
def sampleEditor : EditorState :=
  { hasWavesurfer := true, hasScore := true
    beatMarkers := [⟨1, 0⟩, ⟨2, 2⟩], currentBarToMark := 3, totalBars := 4
    playbackSpeed := 1, wsRate := 1 }

/-! ### Characterization of the two forward scans

Both scans walk the marker list in insertion order and break at the
first marker whose time exceeds the (adjusted) current time; under
non-decreasing marker times this selects exactly the last marker whose
time is at most the current time. -/

/-- The editor scan returns its accumulator unchanged on a list whose
head (if any) has not been reached yet. -/
theorem editorScan_break (t : ℚ) (l : List Marker) (acc : ℤ × ℚ × Option ℚ)
    (h : ∀ m ∈ l.head?, t < m.time) : editorScan t l acc = acc := by
  cases l with
  | nil => rfl
  | cons m rest =>
    have hm : t < m.time := h m rfl
    simp [editorScan, not_le.mpr hm]

/-- Under non-decreasing times, if marker `i` has been reached and
marker `i + 1` (when present) has not, the editor scan lands exactly on
marker `i`, with `nextBarTime` drawn from the remaining suffix. -/
theorem editorScan_eq (t : ℚ) :
    ∀ (l : List Marker) (i : ℕ) (mi : Marker) (acc : ℤ × ℚ × Option ℚ),
    List.Pairwise (fun a b => a.time ≤ b.time) l →
    l.get? i = some mi → mi.time ≤ t →
    (∀ mj ∈ l.get? (i + 1), t < mj.time) →
    editorScan t l acc = (mi.bar, mi.time, editorNextTime (l.drop (i + 1))) := by
  intro l
  induction l with
  | nil => intro i mi acc _ hget; simp at hget
  | cons m rest ih =>
    intro i mi acc hpw hget hle hnext
    match i with
    | 0 =>
      rw [List.get?_cons_zero, Option.some_inj] at hget
      subst hget
      rw [editorScan, if_pos hle, List.drop_one]
      rw [List.tail_cons] at *
      exact editorScan_break t rest _ (by
        intro mj hmj
        exact hnext mj (by cases rest with
          | nil => simp at hmj
          | cons m2 r2 => simp at hmj; simp [hmj]))
    | i' + 1 =>
      rw [List.get?_cons_succ] at hget
      obtain ⟨h1, h2⟩ := List.pairwise_cons.mp hpw
      have hmem : mi ∈ rest := List.get?_mem hget
      have hmt : m.time ≤ t := le_trans (h1 mi hmem) hle
      rw [editorScan, if_pos hmt, List.drop_succ_cons]
      exact ih i' mi _ h2 hget hle (by
        intro mj hmj
        exact hnext mj (by rwa [List.get?_cons_succ]))

/-- The player scan returns its accumulator unchanged on a list whose
head (if any) has not been reached yet. -/
theorem playerScanGo_break (t dur : ℚ) (l : List Marker) (base : ℕ) (acc : ℕ × ℚ × ℚ)
    (h : ∀ m ∈ l.head?, t < m.time) : playerScanGo t dur l base acc = acc := by
  cases l with
  | nil => rfl
  | cons m rest =>
    have hm : t < m.time := h m rfl
    simp [playerScanGo, not_le.mpr hm]

/-- Under non-decreasing times, if marker `k` has been reached and
marker `k + 1` (when present) has not, the player scan lands exactly on
index `k`, with the following marker's time (else the audio duration)
as `nextBarTime`. -/
theorem playerScanGo_eq (t dur : ℚ) :
    ∀ (l : List Marker) (k base : ℕ) (mi : Marker) (acc : ℕ × ℚ × ℚ),
    List.Pairwise (fun a b => a.time ≤ b.time) l →
    l.get? k = some mi → mi.time ≤ t →
    (∀ mj ∈ l.get? (k + 1), t < mj.time) →
    playerScanGo t dur l base acc = (base + k, mi.time, playerNextTime dur (l.drop (k + 1))) := by
  intro l
  induction l with
  | nil => intro k base mi acc _ hget; simp at hget
  | cons m rest ih =>
    intro k base mi acc hpw hget hle hnext
    match k with
    | 0 =>
      rw [List.get?_cons_zero, Option.some_inj] at hget
      subst hget
      rw [playerScanGo, if_pos hle, List.drop_one, List.tail_cons, Nat.add_zero]
      exact playerScanGo_break t dur rest _ _ (by
        intro mj hmj
        exact hnext mj (by cases rest with
          | nil => simp at hmj
          | cons m2 r2 => simp at hmj; simp [hmj]))
    | k' + 1 =>
      rw [List.get?_cons_succ] at hget
      obtain ⟨h1, h2⟩ := List.pairwise_cons.mp hpw
      have hmem : mi ∈ rest := List.get?_mem hget
      have hmt : m.time ≤ t := le_trans (h1 mi hmem) hle
      rw [playerScanGo, if_pos hmt, List.drop_succ_cons]
      rw [ih k' (base + 1) mi _ h2 hget hle (by
        intro mj hmj
        exact hnext mj (by rwa [List.get?_cons_succ]))]
      congr 1
      omega

/-- The head of the suffix dropped after position `n` is entry `n`. -/
theorem head?_drop_eq_get? (l : List Marker) (n : ℕ) : (l.drop n).head? = l.get? n := by
  rw [List.head?_drop, List.get?_eq_getElem?]

/-- The helper `editorNextTime` reads only the head of the suffix. -/
theorem editorNextTime_of_head? {l : List Marker} {m : Marker} (h : l.head? = some m) :
    editorNextTime l = if m.time = 0 then none else some m.time := by
  cases l with
  | nil => simp at h
  | cons a r =>
    rw [List.head?_cons, Option.some_inj] at h
    subst h; rfl

/-- The helper `playerNextTime` reads only the head of the suffix. -/
theorem playerNextTime_of_head? (dur : ℚ) {l : List Marker} {m : Marker}
    (h : l.head? = some m) : playerNextTime dur l = m.time := by
  cases l with
  | nil => simp at h
  | cons a r =>
    rw [List.head?_cons, Option.some_inj] at h
    subst h; rfl

/-- The `Math.min(1, Math.max(0, _))` clamp used by both resolvers is
monotone in its argument. -/
theorem clamp01_mono {a b : ℚ} (h : a ≤ b) : min 1 (max 0 a) ≤ min 1 (max 0 b) :=
  min_le_min le_rfl (max_le_max le_rfl h)

/-- The clamp never goes below `0`. -/
theorem clamp01_nonneg (a : ℚ) : 0 ≤ min 1 (max 0 a) :=
  le_min zero_le_one (le_max_left 0 a)

/-- The clamp never exceeds `1`. -/
theorem clamp01_le_one (a : ℚ) : min 1 (max 0 a) ≤ 1 :=
  min_le_left 1 _

/-- The editor resolver at a time that has reached marker `i` but not
marker `i + 1`: emits marker `i`'s bar (when positive) with the progress
computed against the following marker's time. -/
theorem highlightCurrentBar_of_window (markers : List Marker) (i : ℕ) (mi : Marker) (t : ℚ)
    (htimes : List.Pairwise (fun a b => a.time ≤ b.time) markers)
    (hi : markers.get? i = some mi) (hle : mi.time ≤ t)
    (hnext : ∀ mj ∈ markers.get? (i + 1), t < mj.time) :
    highlightCurrentBar markers t =
      if 0 < mi.bar then
        some (mi.bar, editorProgress t mi.time (editorNextTime (markers.drop (i + 1))))
      else none := by
  simp only [highlightCurrentBar, editorScan_eq t markers i mi _ htimes hi hle hnext]

/-- The player resolver (on the adjusted time) at a time that has
reached marker `i` but not marker `i + 1`: emits marker `i`'s bar with
the progress computed against the following marker's time, or the audio
duration when marker `i` is the last one. -/
theorem resolveAdjusted_of_window (markers : List Marker) (dur : ℚ) (i : ℕ) (mi : Marker)
    (t : ℚ)
    (htimes : List.Pairwise (fun a b => a.time ≤ b.time) markers)
    (hi : markers.get? i = some mi) (hle : mi.time ≤ t)
    (hnext : ∀ mj ∈ markers.get? (i + 1), t < mj.time) :
    resolveAdjusted markers dur t =
      some (mi.bar, playerProgress t mi.time (playerNextTime dur (markers.drop (i + 1)))) := by
  have hscan : playerScan markers dur t =
      (i, mi.time, playerNextTime dur (markers.drop (i + 1))) := by
    unfold playerScan
    rw [playerScanGo_eq t dur markers i 0 mi _ htimes hi hle hnext, Nat.zero_add]
  simp only [resolveAdjusted, hscan, hi]

/-- The update `updateCursorState` changes only the bar fields. -/
theorem updateCursorState_isPlaying (s : PlayerState) :
    (updateCursorState s).isPlaying = s.isPlaying := by
  unfold updateCursorState
  rcases updateCursor s.markers s.duration s.currentTime with _ | ⟨b, p⟩ <;> rfl

/-- The update `updateCursorState` changes only the bar fields. -/
theorem updateCursorState_pausedAt (s : PlayerState) :
    (updateCursorState s).pausedAt = s.pausedAt := by
  unfold updateCursorState
  rcases updateCursor s.markers s.duration s.currentTime with _ | ⟨b, p⟩ <;> rfl

/-- The update `updateCursorState` changes only the bar fields. -/
theorem updateCursorState_currentTime (s : PlayerState) :
    (updateCursorState s).currentTime = s.currentTime := by
  unfold updateCursorState
  rcases updateCursor s.markers s.duration s.currentTime with _ | ⟨b, p⟩ <;> rfl

/-- The update `updateCursorState` changes only the bar fields. -/
theorem updateCursorState_startedAt (s : PlayerState) :
    (updateCursorState s).startedAt = s.startedAt := by
  unfold updateCursorState
  rcases updateCursor s.markers s.duration s.currentTime with _ | ⟨b, p⟩ <;> rfl

/-- The update `updateCursorState` changes only the bar fields. -/
theorem updateCursorState_playbackRate (s : PlayerState) :
    (updateCursorState s).playbackRate = s.playbackRate := by
  unfold updateCursorState
  rcases updateCursor s.markers s.duration s.currentTime with _ | ⟨b, p⟩ <;> rfl

/-- The update `updateCursorState` changes only the bar fields. -/
theorem updateCursorState_audioBuffer (s : PlayerState) :
    (updateCursorState s).audioBuffer = s.audioBuffer := by
  unfold updateCursorState
  rcases updateCursor s.markers s.duration s.currentTime with _ | ⟨b, p⟩ <;> rfl

/-- The update `updateCursorState` changes only the bar fields. -/
theorem updateCursorState_duration (s : PlayerState) :
    (updateCursorState s).duration = s.duration := by
  unfold updateCursorState
  rcases updateCursor s.markers s.duration s.currentTime with _ | ⟨b, p⟩ <;> rfl

/-- The update `updateCursorState` changes only the bar fields. -/
theorem updateCursorState_markers (s : PlayerState) :
    (updateCursorState s).markers = s.markers := by
  unfold updateCursorState
  rcases updateCursor s.markers s.duration s.currentTime with _ | ⟨b, p⟩ <;> rfl

/-- The update `updateCursorState` changes only the bar fields. -/
theorem updateCursorState_isLooping (s : PlayerState) :
    (updateCursorState s).isLooping = s.isLooping := by
  unfold updateCursorState
  rcases updateCursor s.markers s.duration s.currentTime with _ | ⟨b, p⟩ <;> rfl

/-- The update `updateCursorState` changes only the bar fields. -/
theorem updateCursorState_hasSource (s : PlayerState) :
    (updateCursorState s).hasSource = s.hasSource := by
  unfold updateCursorState
  rcases updateCursor s.markers s.duration s.currentTime with _ | ⟨b, p⟩ <;> rfl

/-- The update `updateCursorState` changes only the bar fields. -/
theorem updateCursorState_engineRate (s : PlayerState) :
    (updateCursorState s).engineRate = s.engineRate := by
  unfold updateCursorState
  rcases updateCursor s.markers s.duration s.currentTime with _ | ⟨b, p⟩ <;> rfl

/-- When the resolver emits, `updateCursorState` applies the emitted bar
to the internal `currentBar` and the bar-indicator display. -/
theorem updateCursorState_bar (s : PlayerState) {b : ℤ} {p : ℚ}
    (h : updateCursor s.markers s.duration s.currentTime = some (b, p)) :
    (updateCursorState s).currentBar = b ∧ (updateCursorState s).barDisplay = b := by
  unfold updateCursorState
  rw [h]
  exact ⟨rfl, rfl⟩

/-- The value of `editorProgress` always lies in `[0,1]`. -/
theorem editorProgress_bounds (t c : ℚ) (n : Option ℚ) :
    0 ≤ editorProgress t c n ∧ editorProgress t c n ≤ 1 := by
  cases n with
  | none => simp [editorProgress]
  | some v =>
    simp only [editorProgress]
    split
    · exact ⟨clamp01_nonneg _, clamp01_le_one _⟩
    · norm_num

/-- The value of `playerProgress` always lies in `[0,1]`. -/
theorem playerProgress_bounds (t c n : ℚ) :
    0 ≤ playerProgress t c n ∧ playerProgress t c n ≤ 1 := by
  simp only [playerProgress]
  split
  · exact ⟨clamp01_nonneg _, clamp01_le_one _⟩
  · norm_num

/-! ### The claims -/

/-- C1: For every marker set with strictly increasing bar numbers
and non-decreasing times, and every time lying between two consecutive
marker times, both position resolvers — the editor's
`highlightCurrentBar` and the player's `updateCursor` core
`resolveAdjusted`, each evaluated on its (offset-adjusted) input time —
select the earlier of the two markers as the active marker (the last
marker whose time is `≤` the time) and emit that marker's bar, with the
within-bar progress monotonically non-decreasing in the time. -/
theorem claim1_between_markers_bar_and_monotone
    (markers : List Marker) (dur : ℚ) (i : ℕ) (mi mj : Marker) (t1 t2 : ℚ)
    (hbars : List.Pairwise (fun a b => a.bar < b.bar) markers)
    (htimes : List.Pairwise (fun a b => a.time ≤ b.time) markers)
    (hpos : ∀ m ∈ markers, 1 ≤ m.bar)
    (hi : markers.get? i = some mi) (hj : markers.get? (i + 1) = some mj)
    (ht1 : mi.time ≤ t1) (h12 : t1 ≤ t2) (ht2 : t2 < mj.time) :
    ∃ p1 p2 q1 q2,
      highlightCurrentBar markers t1 = some (mi.bar, p1) ∧
      highlightCurrentBar markers t2 = some (mi.bar, p2) ∧ p1 ≤ p2 ∧
      resolveAdjusted markers dur t1 = some (mi.bar, q1) ∧
      resolveAdjusted markers dur t2 = some (mi.bar, q2) ∧ q1 ≤ q2 := by
  have hbar : 0 < mi.bar := lt_of_lt_of_le zero_lt_one (hpos mi (List.get?_mem hi))
  have hnext1 : ∀ mj' ∈ markers.get? (i + 1), t1 < mj'.time := by
    intro mj' hmj'
    rw [hj] at hmj'
    simp only [Option.mem_some_iff] at hmj'
    subst hmj'
    exact lt_of_le_of_lt h12 ht2
  have hnext2 : ∀ mj' ∈ markers.get? (i + 1), t2 < mj'.time := by
    intro mj' hmj'
    rw [hj] at hmj'
    simp only [Option.mem_some_iff] at hmj'
    subst hmj'
    exact ht2
  have hhead : (markers.drop (i + 1)).head? = some mj := by
    rw [head?_drop_eq_get? markers (i + 1)]
    exact hj
  have hminj : mi.time < mj.time := lt_of_le_of_lt (le_trans ht1 h12) ht2
  have e1 := highlightCurrentBar_of_window markers i mi t1 htimes hi ht1 hnext1
  have e2 := highlightCurrentBar_of_window markers i mi t2 htimes hi (le_trans ht1 h12) hnext2
  rw [if_pos hbar] at e1 e2
  have pn : playerNextTime dur (markers.drop (i + 1)) = mj.time :=
    playerNextTime_of_head? dur hhead
  have r1 := resolveAdjusted_of_window markers dur i mi t1 htimes hi ht1 hnext1
  have r2 := resolveAdjusted_of_window markers dur i mi t2 htimes hi (le_trans ht1 h12) hnext2
  rw [pn] at r1 r2
  have en := editorNextTime_of_head? hhead
  refine ⟨_, _, _, _, e1, e2, ?_, r1, r2, ?_⟩
  · rw [en]
    by_cases hz : mj.time = 0
    · simp [hz, editorProgress]
    · rw [if_neg hz]
      simp only [editorProgress, if_pos hminj]
      exact clamp01_mono (div_le_div_of_nonneg_right (by linarith) (by linarith))
  · simp only [playerProgress, if_pos (show 0 < mj.time - mi.time by linarith)]
    exact clamp01_mono (div_le_div_of_nonneg_right (by linarith) (by linarith))

/-- Witness for C1: markers `(1,0), (2,2), (3,6)`, duration 8, the
window between the second and third marker times, sample times 3 and 4. -/
theorem claim1_between_markers_witness :
    ∃ p1 p2 q1 q2,
      highlightCurrentBar [⟨1, 0⟩, ⟨2, 2⟩, ⟨3, 6⟩] 3 = some (2, p1) ∧
      highlightCurrentBar [⟨1, 0⟩, ⟨2, 2⟩, ⟨3, 6⟩] 4 = some (2, p2) ∧ p1 ≤ p2 ∧
      resolveAdjusted [⟨1, 0⟩, ⟨2, 2⟩, ⟨3, 6⟩] 8 3 = some (2, q1) ∧
      resolveAdjusted [⟨1, 0⟩, ⟨2, 2⟩, ⟨3, 6⟩] 8 4 = some (2, q2) ∧ q1 ≤ q2 :=
  claim1_between_markers_bar_and_monotone [⟨1, 0⟩, ⟨2, 2⟩, ⟨3, 6⟩] 8 1 ⟨2, 2⟩ ⟨3, 6⟩ 3 4
    (by norm_num) (by norm_num) (by norm_num) rfl rfl (by norm_num) (by norm_num) (by norm_num)

/-- C2 counterexample: At raw time 0 with a single marker at time 1
and duration 10, the offset-adjusted time `0 - 0.15` is strictly below
every marker time, yet the player's `updateCursor` still produces a
symbolic position: it emits bar 1 (and, with a tick map present, would
move the renderer cursor), contradicting the claim that no symbolic
position is produced before the first marker. -/
theorem claim2_pre_sync_counterexample :
    ((0 : ℚ) + leadOffset < 1) ∧ updateCursor [⟨1, 1⟩] 10 0 = some (1, 0) := by
  constructor
  · norm_num [leadOffset]
  · norm_num [updateCursor, resolveAdjusted, playerScan, playerScanGo, playerProgress,
      leadOffset, playerNextTime]

/-- C2 amended: For every marker set and every adjusted time
strictly below every marker time: the editor's `highlightCurrentBar`
produces no symbolic position (no bar, no cursor movement), while the
player's `updateCursor` core instead emits the *first* marker's bar,
with progress computed as if the active bar ran from time 0 to the audio
duration. -/
theorem claim2_pre_sync_amended (markers : List Marker) (dur t : ℚ)
    (h : ∀ m ∈ markers, t < m.time) :
    highlightCurrentBar markers t = none ∧
    ∀ m rest, markers = m :: rest →
      resolveAdjusted markers dur t = some (m.bar, playerProgress t 0 dur) := by
  constructor
  · have hscan : editorScan t markers (0, 0, none) = (0, 0, none) :=
      editorScan_break t markers _ (by
        intro m hm
        exact h m (List.mem_of_mem_head? hm))
    simp [highlightCurrentBar, hscan]
  · intro m rest hm
    subst hm
    have hscan : playerScan (m :: rest) dur t = (0, 0, dur) :=
      playerScanGo_break t dur _ 0 _ (by
        intro m' hm'
        exact h m' (List.mem_of_mem_head? hm'))
    simp [resolveAdjusted, hscan]

/-- Witness for the amended C2: one marker at time 1, duration 10,
adjusted time 1/2. -/
theorem claim2_pre_sync_amended_witness :
    highlightCurrentBar [(⟨1, 1⟩ : Marker)] (1/2) = none ∧
    resolveAdjusted [(⟨1, 1⟩ : Marker)] 10 (1/2) = some (1, playerProgress (1/2) 0 10) := by
  have h := claim2_pre_sync_amended [⟨1, 1⟩] 10 (1/2) (by norm_num)
  exact ⟨h.1, h.2 ⟨1, 1⟩ [] rfl⟩

/-- C3 counterexample: With markers `(1,1), (2,2)` and audio
duration 4, the editor resolver at `t = 5 ≥ 4` yields the last bar with
progress `0`, not the claimed clamped `1`: `highlightCurrentBar` never
consults the audio duration and freezes the cursor at the last bar's
start. -/
theorem claim3_last_bar_counterexample :
    highlightCurrentBar [⟨1, 1⟩, ⟨2, 2⟩] 5 = some (2, 0) ∧ (0 : ℚ) ≠ 1 := by
  constructor
  · rfl
  · norm_num

/-- C3 amended: For every marker set with non-decreasing times and
positive bars, and every time at or beyond the last marker's time: the
player's resolver uses the audio duration as the active bar's end time,
yields the last marker's bar, and its progress clamps to `1` once the
adjusted time reaches the duration (for a last marker lying strictly
before the end of the audio); the editor's resolver also yields the last
marker's bar but keeps its progress at `0` — it treats a missing next
marker as "no bar end" and freezes the cursor at the last bar's start
rather than interpolating. -/
theorem claim3_beyond_last_marker (markers : List Marker) (dur t : ℚ) (i : ℕ)
    (mlast : Marker)
    (htimes : List.Pairwise (fun a b => a.time ≤ b.time) markers)
    (hpos : ∀ m ∈ markers, 1 ≤ m.bar)
    (hlast : markers.get? i = some mlast) (hnone : markers.get? (i + 1) = none)
    (hle : mlast.time ≤ t) :
    highlightCurrentBar markers t = some (mlast.bar, 0) ∧
    resolveAdjusted markers dur t = some (mlast.bar, playerProgress t mlast.time dur) ∧
    (dur ≤ t → mlast.time < dur → playerProgress t mlast.time dur = 1) := by
  have hbar : 0 < mlast.bar := lt_of_lt_of_le zero_lt_one (hpos mlast (List.get?_mem hlast))
  have hnext : ∀ mj ∈ markers.get? (i + 1), t < mj.time := by
    intro mj hmj
    rw [hnone] at hmj
    simp at hmj
  have hdrop : markers.drop (i + 1) = [] := by
    rw [← List.head?_eq_none_iff, head?_drop_eq_get? markers (i + 1)]
    exact hnone
  refine ⟨?_, ?_, ?_⟩
  · have e := highlightCurrentBar_of_window markers i mlast t htimes hlast hle hnext
    rw [if_pos hbar, hdrop] at e
    exact e
  · have r := resolveAdjusted_of_window markers dur i mlast t htimes hlast hle hnext
    rw [hdrop] at r
    exact r
  · intro hdur hstrict
    have hpos' : 0 < dur - mlast.time := by linarith
    rw [playerProgress, if_pos hpos']
    have h1 : 1 ≤ (t - mlast.time) / (dur - mlast.time) :=
      (one_le_div hpos').mpr (by linarith)
    exact min_eq_left (le_max_of_le_right h1)

/-- Witness for the amended C3: markers `(1,0), (2,2)`, duration 4,
resolved at time 5. -/
theorem claim3_beyond_last_marker_witness :
    highlightCurrentBar [⟨1, 0⟩, ⟨2, 2⟩] 5 = some (2, 0) ∧
    resolveAdjusted [⟨1, 0⟩, ⟨2, 2⟩] 4 5 = some (2, playerProgress 5 2 4) ∧
    playerProgress 5 2 4 = 1 := by
  have h := claim3_beyond_last_marker [⟨1, 0⟩, ⟨2, 2⟩] 4 5 1 ⟨2, 2⟩
    (by norm_num) (by norm_num) rfl rfl (by norm_num)
  exact ⟨h.1, h.2.1, h.2.2 (by norm_num) (by norm_num)⟩

/-- C4: For every marker set (including non-monotonic ones) and
every time, the within-bar progress emitted by either resolver is a
rational in `[0,1]` (the embedding has no NaN/undefined), and the
progress formulas of both resolvers map a zero-or-negative bar duration
to progress `0`. -/
theorem claim4_progress_bounds (markers : List Marker) (dur t : ℚ) :
    (∀ b p, highlightCurrentBar markers t = some (b, p) → 0 ≤ p ∧ p ≤ 1) ∧
    (∀ b p, updateCursor markers dur t = some (b, p) → 0 ≤ p ∧ p ≤ 1) ∧
    (∀ c n, n - c ≤ 0 → playerProgress t c n = 0) ∧
    (∀ c n, n ≤ c → editorProgress t c (some n) = 0) ∧
    (∀ c, editorProgress t c none = 0) := by
  refine ⟨?_, ?_, ?_, ?_, ?_⟩
  · intro b p hp
    unfold highlightCurrentBar at hp
    rcases hscan : editorScan t markers (0, 0, none) with ⟨bar, c, n⟩
    rw [hscan] at hp
    dsimp only at hp
    by_cases hb : 0 < bar
    · rw [if_pos hb, Option.some_inj, Prod.mk.injEq] at hp
      rw [← hp.2]
      exact editorProgress_bounds t c n
    · rw [if_neg hb] at hp
      exact absurd hp (by simp)
  · intro b p hp
    unfold updateCursor resolveAdjusted at hp
    rcases hscan : playerScan markers dur (t + leadOffset) with ⟨idx, c, n⟩
    rw [hscan] at hp
    dsimp only at hp
    cases hget : markers.get? idx with
    | none => rw [hget] at hp; exact absurd hp (by simp)
    | some m =>
      rw [hget, Option.some_inj, Prod.mk.injEq] at hp
      rw [← hp.2]
      exact playerProgress_bounds _ c n
  · intro c n hcn
    rw [playerProgress, if_neg (not_lt.mpr hcn)]
  · intro c n hcn
    simp only [editorProgress]
    rw [if_neg (not_lt.mpr hcn)]
  · intro c
    rfl

/-- Witness for C4: markers `(1,0), (2,2)`, duration 10, raw time 1
(editor progress `1/2`; player progress `17/40` after the `-0.15`
offset), plus degenerate bar durations sent to `0`. -/
theorem claim4_progress_bounds_witness :
    ((0 : ℚ) ≤ 1/2 ∧ (1 : ℚ)/2 ≤ 1) ∧ ((0 : ℚ) ≤ 17/40 ∧ (17 : ℚ)/40 ≤ 1) ∧
    playerProgress 1 5 3 = 0 ∧ editorProgress 1 5 (some 3) = 0 ∧
    editorProgress 1 5 none = 0 := by
  have h := claim4_progress_bounds [⟨1, 0⟩, ⟨2, 2⟩] 10 1
  refine ⟨h.1 1 (1/2) ?_, h.2.1 1 (17/40) ?_, h.2.2.1 5 3 (by norm_num),
    h.2.2.2.1 5 3 (by norm_num), h.2.2.2.2 5⟩
  · norm_num [highlightCurrentBar, editorScan, editorNextTime, editorProgress]
  · norm_num [updateCursor, resolveAdjusted, playerScan, playerScanGo, playerProgress,
      leadOffset, playerNextTime]

/-- C5: `seekTo` is valid in any transport state: it clamps the
stored position (`pausedAt` and `currentTime`) to `[0, duration]`; it
preserves the playing/paused status, and when playback was active the
pause/reposition/resume sequence leaves the engine-side playback
position exactly at the clamped requested time; and it synchronously
re-resolves and re-applies the symbolic position (bar indicator and
internal bar) without waiting for the next frame tick. -/
theorem claim5_seek_clamps_and_reapplies (s : PlayerState) (now x : ℚ)
    (hbuf : s.audioBuffer = true) (hrate : s.playbackRate ≠ 0) :
    (seekTo now x s).pausedAt = max 0 (min x s.duration) ∧
    (seekTo now x s).currentTime = max 0 (min x s.duration) ∧
    (seekTo now x s).isPlaying = s.isPlaying ∧
    (s.isPlaying = true → engineTime now (seekTo now x s) = max 0 (min x s.duration)) ∧
    (∀ b p, updateCursor s.markers s.duration (max 0 (min x s.duration)) = some (b, p) →
      (seekTo now x s).currentBar = b ∧ (seekTo now x s).barDisplay = b) := by
  refine ⟨?_, ?_, ?_, ?_, ?_⟩
  · by_cases hp : s.isPlaying <;>
      simp [seekTo, pause, play, hp, hbuf, updateCursorState_pausedAt,
        updateCursorState_audioBuffer]
  · by_cases hp : s.isPlaying <;>
      simp [seekTo, pause, play, hp, hbuf, updateCursorState_currentTime,
        updateCursorState_audioBuffer]
  · by_cases hp : s.isPlaying <;>
      simp [seekTo, pause, play, hp, hbuf, updateCursorState_isPlaying,
        updateCursorState_audioBuffer]
  · intro hp
    simp only [seekTo, pause, play, engineTime, hp, hbuf, Bool.not_true, Bool.not_false,
      if_true, if_false, ite_true, ite_false]
    simp [updateCursorState_pausedAt, updateCursorState_playbackRate,
      updateCursorState_audioBuffer]
    field_simp
  · intro b p hres
    by_cases hp : s.isPlaying <;>
      simp only [seekTo, pause, play, hp, hbuf, Bool.not_true, Bool.not_false, if_true,
        if_false, ite_true, ite_false] <;>
      simp [updateCursorState_audioBuffer] <;>
      exact updateCursorState_bar _ hres

/-- Witness for C5: the playing `samplePlayer` (duration 8) seeked to 20
at context time 9: position clamps to 8 and the resolver re-emits bar 3
immediately. -/
theorem claim5_seek_witness :
    (seekTo 9 20 samplePlayer).pausedAt = 8 ∧
    (seekTo 9 20 samplePlayer).currentTime = 8 ∧
    (seekTo 9 20 samplePlayer).isPlaying = true ∧
    engineTime 9 (seekTo 9 20 samplePlayer) = 8 ∧
    ((seekTo 9 20 samplePlayer).currentBar = 3 ∧ (seekTo 9 20 samplePlayer).barDisplay = 3) := by
  have h := claim5_seek_clamps_and_reapplies samplePlayer 9 20 rfl
    (by norm_num [samplePlayer])
  have hclamp : max 0 (min (20 : ℚ) samplePlayer.duration) = 8 := by
    norm_num [samplePlayer]
  rw [hclamp] at h
  refine ⟨h.1, h.2.1, by rw [h.2.2.1]; rfl, h.2.2.2.1 rfl, h.2.2.2.2 3 (37/40) ?_⟩
  show updateCursor [⟨1, 0⟩, ⟨2, 2⟩, ⟨3, 6⟩] 8 8 = some (3, 37/40)
  norm_num [updateCursor, resolveAdjusted, playerScan, playerScanGo, playerProgress,
    leadOffset, playerNextTime]

/-- C6: When the audio reaches end-of-media while playing: with
looping enabled the `onended` handler seeks to 0 and resumes playing
(the engine-side position restarts at 0); with looping disabled it
transitions to Stopped — playback off, stored position reset to 0, and
the bar indicator reset to bar 1. -/
theorem claim6_end_of_media (s : PlayerState) (now : ℚ)
    (hp : s.isPlaying = true) (hbuf : s.audioBuffer = true) (hdur : 0 ≤ s.duration) :
    (s.isLooping = true →
      (onEnded now s).isPlaying = true ∧ (onEnded now s).pausedAt = 0 ∧
      (onEnded now s).currentTime = 0 ∧ engineTime now (onEnded now s) = 0) ∧
    (s.isLooping = false →
      (onEnded now s).isPlaying = false ∧ (onEnded now s).pausedAt = 0 ∧
      (onEnded now s).currentTime = 0 ∧ (onEnded now s).barDisplay = 1) := by
  have hmin : min (0 : ℚ) s.duration = 0 := min_eq_left hdur
  constructor
  · intro hloop
    simp [onEnded, seekTo, pause, play, engineTime, hp, hloop, hbuf, hmin,
      updateCursorState_pausedAt, updateCursorState_currentTime,
      updateCursorState_playbackRate, updateCursorState_audioBuffer]
  · intro hloop
    simp [onEnded, stop, pause, hp, hloop, updateCursorState_isPlaying,
      updateCursorState_pausedAt, updateCursorState_currentTime]

/-- Witness for C6: `samplePlayer` is playing and not looping (stop
branch); the same state with looping on exercises the loop branch. -/
theorem claim6_end_of_media_witness :
    ((onEnded 9 { samplePlayer with isLooping := true }).isPlaying = true ∧
      (onEnded 9 { samplePlayer with isLooping := true }).pausedAt = 0 ∧
      (onEnded 9 { samplePlayer with isLooping := true }).currentTime = 0 ∧
      engineTime 9 (onEnded 9 { samplePlayer with isLooping := true }) = 0) ∧
    ((onEnded 9 samplePlayer).isPlaying = false ∧ (onEnded 9 samplePlayer).pausedAt = 0 ∧
      (onEnded 9 samplePlayer).currentTime = 0 ∧ (onEnded 9 samplePlayer).barDisplay = 1) := by
  have h1 := claim6_end_of_media { samplePlayer with isLooping := true } 9 rfl rfl
    (by norm_num [samplePlayer])
  have h2 := claim6_end_of_media samplePlayer 9 rfl rfl (by norm_num [samplePlayer])
  exact ⟨h1.1 rfl, h2.2 rfl⟩

/-- C7: When a tap actually appends (audio and score loaded, a bar
still unmarked), an immediate undo restores the exact prior editor
state, `currentBarToMark` included; and undo on an empty marker list is
a no-op that changes nothing. -/
theorem claim7_tap_undo_roundtrip (s : EditorState) (t : ℚ) :
    (s.hasWavesurfer = true → s.hasScore = true → s.currentBarToMark ≤ s.totalBars →
      undoLastMarker (recordBeatMarker t s) = s) ∧
    (s.beatMarkers.length = 0 → undoLastMarker s = s) := by
  constructor
  · intro hw hs hcb
    have hrec : recordBeatMarker t s =
        { s with
          beatMarkers := s.beatMarkers ++ [⟨s.currentBarToMark, t⟩]
          currentBarToMark := s.currentBarToMark + 1 } := by
      simp [recordBeatMarker, hw, hs, if_neg (not_lt.mpr hcb)]
    rw [hrec, undoLastMarker]
    simp [List.dropLast_concat]
  · intro h0
    simp [undoLastMarker, h0]

/-- Witness for C7: tapping bar 3 at time 4 in the loaded `sampleEditor`
then undoing restores the state; undo on the emptied session is a
no-op. -/
theorem claim7_tap_undo_roundtrip_witness :
    undoLastMarker (recordBeatMarker 4 sampleEditor) = sampleEditor ∧
    undoLastMarker { sampleEditor with beatMarkers := [] } =
      { sampleEditor with beatMarkers := [] } :=
  ⟨(claim7_tap_undo_roundtrip sampleEditor 4).1 rfl rfl (by norm_num [sampleEditor]),
    (claim7_tap_undo_roundtrip { sampleEditor with beatMarkers := [] } 0).2 rfl⟩

/-- C8: When every bar is already marked
(`currentBarToMark > totalBars`), a tap is a complete no-op: the editor
state — marker list and `currentBarToMark` included — is unchanged. -/
theorem claim8_tap_noop_when_complete (s : EditorState) (t : ℚ)
    (h : s.totalBars < s.currentBarToMark) : recordBeatMarker t s = s := by
  rw [recordBeatMarker]
  by_cases hg : (!s.hasWavesurfer || !s.hasScore) = true
  · rw [if_pos hg]
  · rw [if_neg hg, if_pos h]

/-- Witness for C8: `sampleEditor` with all four bars marked. -/
theorem claim8_tap_noop_witness :
    recordBeatMarker 7 { sampleEditor with currentBarToMark := 5 } =
      { sampleEditor with currentBarToMark := 5 } :=
  claim8_tap_noop_when_complete { sampleEditor with currentBarToMark := 5 } 7
    (by norm_num [sampleEditor])

/-- C9 counterexample: Setting the tempo slider to `-50` (rate
multiplier `-1/2 ≤ 0`) does not fail — there is no `InvalidRate` check
anywhere in either handler — and the negative rate *is* applied to the
live audio source: `samplePlayer` has a live source with engine rate 1,
and after the call both the stored rate and the engine rate are `-1/2`. -/
theorem claim9_invalid_rate_counterexample :
    samplePlayer.engineRate = 1 ∧
    (setTempoSlider (-50) samplePlayer).playbackRate = -1/2 ∧
    (setTempoSlider (-50) samplePlayer).engineRate = -1/2 := by
  refine ⟨rfl, ?_, ?_⟩ <;> norm_num [setTempoSlider, samplePlayer]

/-- C9 amended: The rate handlers perform no validation: for every
slider value `v` (rate multiplier `v/100`, including values `≤ 0`) the
player handler stores the rate and applies it to the audio engine
exactly when a source is live, and the editor handler stores the rate
and applies it to the audio widget exactly when the widget exists; no
`InvalidRate` failure path exists. -/
theorem claim9_set_rate_unvalidated (value : ℤ) (s : PlayerState) (e : EditorState) :
    (setTempoSlider value s).playbackRate = (value : ℚ) / 100 ∧
    (setTempoSlider value s).engineRate =
      (if s.hasSource then (value : ℚ) / 100 else s.engineRate) ∧
    (setSpeedSlider value e).playbackSpeed = (value : ℚ) / 100 ∧
    (setSpeedSlider value e).wsRate =
      (if e.hasWavesurfer then (value : ℚ) / 100 else e.wsRate) := by
  unfold setTempoSlider setSpeedSlider
  by_cases h1 : s.hasSource <;> by_cases h2 : e.hasWavesurfer <;> simp [h1, h2]

/-- Appending the marker continuing the run preserves
`barsSeqFrom`. -/
theorem barsSeqFrom_append (t : ℚ) :
    ∀ (l : List Marker) (k : ℤ), barsSeqFrom k l = true →
      barsSeqFrom k (l ++ [⟨k + l.length, t⟩]) = true := by
  intro l
  induction l with
  | nil =>
    intro k _
    simp [barsSeqFrom]
  | cons m rest ih =>
    intro k h
    rw [barsSeqFrom, Bool.and_eq_true] at h
    rw [List.cons_append, barsSeqFrom, Bool.and_eq_true]
    refine ⟨h.1, ?_⟩
    have hmk : (⟨k + ((m :: rest).length : ℤ), t⟩ : Marker) =
        ⟨(k + 1) + (rest.length : ℤ), t⟩ := by
      congr 1
      push_cast [List.length_cons]
      ring
    rw [hmk]
    exact ih (k + 1) h.2

/-- Dropping the last marker preserves `barsSeqFrom`. -/
theorem barsSeqFrom_dropLast :
    ∀ (l : List Marker) (k : ℤ), barsSeqFrom k l = true →
      barsSeqFrom k l.dropLast = true := by
  intro l
  induction l with
  | nil =>
    intro k h
    exact h
  | cons m rest ih =>
    intro k h
    cases rest with
    | nil => rfl
    | cons m2 r2 =>
      rw [barsSeqFrom, Bool.and_eq_true] at h
      show barsSeqFrom k (m :: (m2 :: r2).dropLast) = true
      rw [barsSeqFrom, Bool.and_eq_true]
      exact ⟨h.1, ih (k + 1) h.2⟩

/-- Each recording-session action preserves the session invariant:
bars are `1, 2, ..., count` in insertion order and `currentBarToMark`
is `count + 1`. -/
theorem applyOp_preserves_invariant (s : EditorState) (op : EditorOp)
    (hseq : barsSeqFrom 1 s.beatMarkers = true)
    (hcb : s.currentBarToMark = (s.beatMarkers.length : ℤ) + 1) :
    barsSeqFrom 1 (applyOp s op).beatMarkers = true ∧
    (applyOp s op).currentBarToMark = (((applyOp s op).beatMarkers.length : ℤ) + 1) := by
  cases op with
  | tap t =>
    simp only [applyOp]
    rw [recordBeatMarker]
    by_cases hg : (!s.hasWavesurfer || !s.hasScore) = true
    · rw [if_pos hg]
      exact ⟨hseq, hcb⟩
    · rw [if_neg hg]
      by_cases hc : s.totalBars < s.currentBarToMark
      · rw [if_pos hc]
        exact ⟨hseq, hcb⟩
      · rw [if_neg hc]
        dsimp only
        constructor
        · have hmk : (⟨s.currentBarToMark, t⟩ : Marker) =
              ⟨1 + (s.beatMarkers.length : ℤ), t⟩ := by
            rw [hcb]
            congr 1
            ring
          rw [hmk]
          exact barsSeqFrom_append t s.beatMarkers 1 hseq
        · rw [hcb, List.length_append, List.length_singleton]
          push_cast
          ring
  | undo =>
    simp only [applyOp]
    rw [undoLastMarker]
    by_cases h0 : s.beatMarkers.length = 0
    · rw [if_pos h0]
      exact ⟨hseq, hcb⟩
    · rw [if_neg h0]
      dsimp only
      refine ⟨barsSeqFrom_dropLast s.beatMarkers 1 hseq, ?_⟩
      rw [List.length_dropLast, hcb]
      have h1 : 1 ≤ s.beatMarkers.length := Nat.pos_of_ne_zero h0
      push_cast [Nat.cast_sub h1]
      ring
  | clear c =>
    simp only [applyOp]
    rw [clearAllMarkers]
    by_cases h0 : s.beatMarkers.length = 0
    · rw [if_pos h0]
      exact ⟨hseq, hcb⟩
    · rw [if_neg h0]
      by_cases hc : (!c) = true
      · rw [if_pos hc]
        exact ⟨hseq, hcb⟩
      · rw [if_neg hc]
        exact ⟨rfl, by norm_num⟩

/-- The session invariant is preserved by any finite action sequence. -/
theorem runOps_preserves_invariant :
    ∀ (ops : List EditorOp) (s : EditorState),
    barsSeqFrom 1 s.beatMarkers = true →
    s.currentBarToMark = (s.beatMarkers.length : ℤ) + 1 →
    barsSeqFrom 1 (runOps s ops).beatMarkers = true ∧
    (runOps s ops).currentBarToMark = (((runOps s ops).beatMarkers.length : ℤ) + 1) := by
  intro ops
  induction ops with
  | nil =>
    intro s hseq hcb
    exact ⟨hseq, hcb⟩
  | cons op rest ih =>
    intro s hseq hcb
    rw [runOps, List.foldl_cons]
    have h := applyOp_preserves_invariant s op hseq hcb
    exact ih (applyOp s op) h.1 h.2

/-- C10: Starting from the empty marker state, after every finite
sequence of tap, undo and clear actions the marker list carries exactly
the bar numbers `1, 2, ..., count` in insertion order, and
`currentBarToMark` equals the marker count plus one. -/
theorem claim10_session_invariant (s : EditorState)
    (h1 : s.beatMarkers = []) (h2 : s.currentBarToMark = 1) (ops : List EditorOp) :
    barsSeqFrom 1 (runOps s ops).beatMarkers = true ∧
    (runOps s ops).currentBarToMark = (((runOps s ops).beatMarkers.length : ℤ) + 1) := by
  apply runOps_preserves_invariant ops s
  · rw [h1]
    rfl
  · rw [h1, h2]
    rfl

/-- Witness for C10: from the freshly loaded empty session, the sequence
tap, tap, undo, tap ends with bars `1, 2` and `currentBarToMark = 3`. -/
theorem claim10_session_invariant_witness :
    barsSeqFrom 1 (runOps { sampleEditor with beatMarkers := [], currentBarToMark := 1 }
      [.tap 0, .tap 2, .undo, .tap 3]).beatMarkers = true ∧
    (runOps { sampleEditor with beatMarkers := [], currentBarToMark := 1 }
      [.tap 0, .tap 2, .undo, .tap 3]).currentBarToMark =
      (((runOps { sampleEditor with beatMarkers := [], currentBarToMark := 1 }
        [.tap 0, .tap 2, .undo, .tap 3]).beatMarkers.length : ℤ) + 1) :=
  claim10_session_invariant { sampleEditor with beatMarkers := [], currentBarToMark := 1 }
    rfl rfl [.tap 0, .tap 2, .undo, .tap 3]

end TabSync
